import Mathlib

/-!
Shallow embedding of the opdt-go protocol core (packet codec, nonce pool,
server handler, client response parsing, client one-shot drain loop).

Modelling conventions:
* Bytes are `Nat` values; a well-formed byte is `< 256`.  Buffers are `List Nat`.
* Wall-clock time is an `Int` counted in seconds (`time.Now().Unix()`); the
  nonce pool's retention and insertion times use the same scale, with the Go
  value `ReplayWindowDuration = 2 * 30 * time.Second` becoming `60`.
* The XChaCha20-Poly1305 primitive is opaque in the source's design; it is
  embedded as a pair of functions (`AEADFns`) together with the algebraic
  laws the protocol relies on (`AEADCorrect`).  A concrete executable
  instance (`shiftAEAD`) witnesses the laws.
* In-place decryption (Go's `aead.Open(ciphertext[:0], ...)`) is modelled by
  returning the post-call contents of the input buffer (`reqAfter`,
  `respAfter`).
* `rand.Read` results (fresh nonces) are passed as explicit parameters.
-/

namespace Opdt

/-! ## Binary big-endian encoding (encoding/binary) -/

/-- `binary.BigEndian.PutUint64`: the eight big-endian base-256 digits of `x`
(taken modulo `2^64` by construction). -/
def putUint64BE (x : Nat) : List Nat :=
  [x / 2^56 % 256, x / 2^48 % 256, x / 2^40 % 256, x / 2^32 % 256,
   x / 2^24 % 256, x / 2^16 % 256, x / 2^8 % 256, x % 256]

/-- `binary.BigEndian.Uint64`: reads the first eight bytes.  The Go function
panics on a shorter buffer; the model returns 0 there (all uses in the code
guarantee at least eight bytes). -/
def getUint64BE : List Nat → Nat
  | b0 :: b1 :: b2 :: b3 :: b4 :: b5 :: b6 :: b7 :: _ =>
      b0 * 2^56 + b1 * 2^48 + b2 * 2^40 + b3 * 2^32 +
      b4 * 2^24 + b5 * 2^16 + b6 * 2^8 + b7
  | _ => 0

/-- `binary.BigEndian.PutUint16`. -/
def putUint16BE (x : Nat) : List Nat := [x / 2^8 % 256, x % 256]

/-- `binary.BigEndian.Uint16`. -/
def getUint16BE : List Nat → Nat
  | b0 :: b1 :: _ => b0 * 2^8 + b1
  | _ => 0

/-- Go's `uint64(x)` conversion of an `int64` value (two's complement). -/
def toUint64 (x : Int) : Nat := (x % (2^64 : Int)).toNat

/-- Go's `int64(n)` conversion of a `uint64` value (two's complement). -/
def toInt64 (n : Nat) : Int := if n < 2^63 then (n : Int) else (n : Int) - 2^64

theorem putUint64BE_getUint64BE (n : Nat) (rest : List Nat) (h : n < 2^64) :
    getUint64BE (putUint64BE n ++ rest) = n := by
  simp only [putUint64BE, getUint64BE, List.cons_append]
  omega

theorem putUint64BE_bytes_lt (n : Nat) : ∀ y ∈ putUint64BE n, y < 256 := by
  simp only [putUint64BE, List.mem_cons, List.not_mem_nil, or_false]
  intro y hy
  rcases hy with h | h | h | h | h | h | h | h <;> subst h <;> omega

theorem putUint16BE_getUint16BE (p : Nat) (rest : List Nat) (h : p < 2^16) :
    getUint16BE (putUint16BE p ++ rest) = p := by
  simp only [putUint16BE, getUint16BE, List.cons_append]
  omega

theorem putUint16BE_bytes_lt (n : Nat) : ∀ y ∈ putUint16BE n, y < 256 := by
  simp only [putUint16BE, List.mem_cons, List.not_mem_nil, or_false]
  intro y hy
  rcases hy with h | h <;> subst h <;> omega

theorem toUint64_lt (x : Int) : toUint64 x < 2^64 := by
  unfold toUint64
  omega

theorem toInt64_toUint64 (x : Int) (h1 : -2^63 ≤ x) (h2 : x < 2^63) :
    toInt64 (toUint64 x) = x := by
  unfold toInt64 toUint64
  omega

/-! ## `net/netip` address model

A Go `netip.Addr` is either a 4-byte IPv4 address or a 16-byte IPv6 address
(`AddrFrom16` always yields the latter).  `As16` maps an IPv4 address to its
IPv4-in-IPv6 form `::ffff:a.b.c.d`; `Unmap` inverts that mapping. -/

inductive Addr where
  | v4 (a b c d : Nat)
  | v6 (bs : List Nat)
deriving DecidableEq

/-- The first twelve bytes of an IPv4-in-IPv6 mapped address `::ffff:a.b.c.d`. -/
def v4InV6Front : List Nat := [0, 0, 0, 0, 0, 0, 0, 0, 0, 0, 255, 255]

/-- `netip.Addr.As16`. -/
def Addr.As16 : Addr → List Nat
  | .v4 a b c d => v4InV6Front ++ [a, b, c, d]
  | .v6 bs => bs

/-- `netip.AddrFrom16`: always produces an IPv6-form address. -/
def AddrFrom16 (bs : List Nat) : Addr := .v6 bs

/-- `netip.Addr.Unmap`: strips the IPv4-in-IPv6 mapping if present. -/
def Addr.Unmap : Addr → Addr
  | .v4 a b c d => .v4 a b c d
  | .v6 bs =>
    if bs.take 12 = v4InV6Front then
      .v4 (bs.getD 12 0) (bs.getD 13 0) (bs.getD 14 0) (bs.getD 15 0)
    else .v6 bs

/-- Well-formedness: component bytes below 256, and an IPv6 address carries
exactly 16 bytes. -/
def Addr.wf : Addr → Bool
  | .v4 a b c d => a < 256 && b < 256 && c < 256 && d < 256
  | .v6 bs => bs.length = 16 && bs.all (fun x => x < 256)

structure AddrPort where
  addr : Addr
  port : Nat
deriving DecidableEq

theorem As16_length (a : Addr) (h : a.wf = true) : a.As16.length = 16 := by
  cases a with
  | v4 a b c d => simp [Addr.As16, v4InV6Front]
  | v6 bs =>
    simp only [Addr.wf, Bool.and_eq_true, decide_eq_true_eq] at h
    simpa [Addr.As16] using h.1

theorem As16_bytes_lt (a : Addr) (h : a.wf = true) : ∀ y ∈ a.As16, y < 256 := by
  cases a with
  | v4 a b c d =>
    simp only [Addr.wf, Bool.and_eq_true, decide_eq_true_eq] at h
    intro y hy
    simp only [Addr.As16, v4InV6Front, List.cons_append, List.nil_append,
      List.mem_cons, List.not_mem_nil, or_false] at hy
    rcases hy with h' | h' | h' | h' | h' | h' | h' | h' | h' | h' | h' | h' |
      h' | h' | h' | h' <;> subst h' <;> omega
  | v6 bs =>
    simp only [Addr.wf, Bool.and_eq_true, decide_eq_true_eq, List.all_eq_true] at h
    intro y hy
    exact h.2 y hy

theorem Unmap_AddrFrom16_As16 (a : Addr) (hwf : a.wf = true)
    (hun : a.Unmap = a) : (AddrFrom16 a.As16).Unmap = a := by
  cases a with
  | v4 a b c d =>
    simp [AddrFrom16, Addr.As16, Addr.Unmap, v4InV6Front]
  | v6 bs =>
    simpa [AddrFrom16, Addr.As16] using hun

/-! ## The AEAD primitive (golang.org/x/crypto/chacha20poly1305)

Treated as an opaque pair (seal, open) over a 24-byte nonce with a 16-byte
tag, per the source's use of `cipher.AEAD`. -/

structure AEADFns where
  Seal : List Nat → List Nat → List Nat
  Open : List Nat → List Nat → Option (List Nat)

/-- The algebraic contract of an AEAD used by the protocol: sealing adds
exactly the 16-byte overhead, and opening a sealed well-formed plaintext
under the same nonce recovers it. -/
def AEADCorrect (A : AEADFns) : Prop :=
  (∀ n pt, (A.Seal n pt).length = pt.length + 16) ∧
  (∀ n pt, (∀ x ∈ pt, x < 256) → A.Open n (A.Seal n pt) = some pt)

/-! A concrete executable AEAD instance: bytes are shifted by 7 mod 256 and a
16-byte checksum tag is appended.  It satisfies `AEADCorrect`, which is all
the protocol relies on. -/

def shiftByte (b : Nat) : Nat := (b + 7) % 256

def unshiftByte (b : Nat) : Nat := (b + 249) % 256

def shiftTag (n pt : List Nat) : List Nat :=
  List.replicate 16 ((n.foldl (fun a b => a + b) 0 + pt.foldl (fun a b => a + b) 0) % 256)

def shiftSealFn (n pt : List Nat) : List Nat := pt.map shiftByte ++ shiftTag n pt

def shiftOpenFn (n ct : List Nat) : Option (List Nat) :=
  if 16 ≤ ct.length then
    let pt := (ct.take (ct.length - 16)).map unshiftByte
    if ct.drop (ct.length - 16) = shiftTag n pt then some pt else none
  else none

def shiftAEAD : AEADFns := ⟨shiftSealFn, shiftOpenFn⟩

theorem unshiftByte_shiftByte (b : Nat) (h : b < 256) :
    unshiftByte (shiftByte b) = b := by
  unfold unshiftByte shiftByte
  omega

theorem map_unshift_shift (pt : List Nat) (h : ∀ x ∈ pt, x < 256) :
    (pt.map shiftByte).map unshiftByte = pt := by
  induction pt with
  | nil => rfl
  | cons a l ih =>
    simp only [List.map_cons, List.cons.injEq]
    constructor
    · exact unshiftByte_shiftByte a (h a (List.mem_cons_self a l))
    · exact ih (fun x hx => h x (List.mem_cons_of_mem a hx))

theorem shiftAEAD_correct : AEADCorrect shiftAEAD := by
  constructor
  · intro n pt
    simp [shiftAEAD, shiftSealFn, shiftTag]
  · intro n pt h
    have hlen : (shiftSealFn n pt).length = pt.length + 16 := by
      simp [shiftSealFn, shiftTag]
    have htake : (shiftSealFn n pt).take ((shiftSealFn n pt).length - 16)
        = pt.map shiftByte := by
      rw [hlen]
      simp only [Nat.add_sub_cancel, shiftSealFn]
      rw [show pt.length = (pt.map shiftByte).length by simp]
      exact List.take_left _ _
    have hdrop : (shiftSealFn n pt).drop ((shiftSealFn n pt).length - 16)
        = shiftTag n pt := by
      rw [hlen]
      simp only [Nat.add_sub_cancel, shiftSealFn]
      rw [show pt.length = (pt.map shiftByte).length by simp]
      exact List.drop_left _ _
    show shiftOpenFn n (shiftSealFn n pt) = some pt
    unfold shiftOpenFn
    rw [if_pos (by omega)]
    simp only [htake, hdrop, map_unshift_shift pt h]
    simp

/-! ## noncepool.NoncePool

The Go pool is a `map[T]time.Time` plus a retention duration and the time of
the last sweep; here the map is an association list with unique keys (newest
entry first, as `Add` overwrites), and instants are `Int`. -/

structure NoncePool (T : Type) where
  pool : List (T × Int)
  retention : Int
  lastClean : Int
deriving DecidableEq

/-- Go map indexing `p.pool[nonce]`: the stored insertion time, if any. -/
def mapGet {T : Type} [DecidableEq T] : T → List (T × Int) → Option Int
  | _, [] => none
  | k, e :: es => if e.1 = k then some e.2 else mapGet k es

/-- `(*NoncePool).clean`: when more than `retention` has passed since the last
sweep, drop every entry older than `retention` (Go deletes when
`now.Sub(added) > p.retention`; the filter keeps the complement). -/
def NoncePool.clean {T : Type} (p : NoncePool T) (now : Int) : NoncePool T :=
  if now - p.lastClean > p.retention then
    { p with
      pool := p.pool.filter (fun e => decide (now - e.2 ≤ p.retention)),
      lastClean := now }
  else p

/-- `(*NoncePool).Check`: sweep lazily, then report whether the nonce is
absent.  Returns the flag together with the pool state after the sweep (the
Go method mutates the receiver). -/
def NoncePool.Check {T : Type} [DecidableEq T] (p : NoncePool T) (now : Int)
    (nonce : T) : Bool × NoncePool T :=
  let p' := p.clean now
  ((mapGet nonce p'.pool).isNone, p')

/-- `(*NoncePool).Add`: record the nonce with the current time, overwriting
any prior entry. -/
def NoncePool.Add {T : Type} [DecidableEq T] (p : NoncePool T) (now : Int)
    (nonce : T) : NoncePool T :=
  { p with pool := (nonce, now) :: p.pool.filter (fun e => decide (e.1 ≠ nonce)) }

/-- `noncepool.New`: empty pool created at `now`. -/
def NoncePool.New (T : Type) (retention now : Int) : NoncePool T :=
  { pool := [], retention := retention, lastClean := now }

/-! ## packet constants and errors -/

def MessageTypeRequest : Nat := 0
def MessageTypeResponse : Nat := 1

/-- `chacha20poly1305.NonceSizeX`. -/
def NonceSizeX : Nat := 24

/-- `chacha20poly1305.Overhead`. -/
def Overhead : Nat := 16

/-- random nonce + unix epoch timestamp + type + AEAD tag. -/
def RequestPacketSize : Nat := NonceSizeX + 8 + 1 + Overhead

/-- random nonce + unix epoch timestamp + type + IP + port + AEAD tag. -/
def ResponsePacketSize : Nat := NonceSizeX + 8 + 1 + 16 + 2 + Overhead

/-- `MaxEpochDiff`: maximum allowed difference between a received timestamp
and system time, in seconds. -/
def MaxEpochDiff : Int := 30

/-- `ReplayWindowDuration = MaxTimeDiff * 2`, in seconds. -/
def ReplayWindowDuration : Int := 60

/-- The error taxonomy of the packet package.  `openFailed` stands for the
opaque error returned by `aead.Open`; `badTimestamp` for `ErrBadTimestamp`
(the Go code wraps it with the offending values); `badMessageType` for
`ErrBadMessageType`. -/
inductive PacketErr where
  | badPacketSize
  | repeatedNonce
  | openFailed
  | badTimestamp
  | badMessageType
deriving DecidableEq

/-- `packet.CheckUnixEpochTimestamp` with the system clock passed
explicitly: decode the first eight bytes as a big-endian `uint64`, reinterpret
as `int64`, and reject when the offset from `now` leaves `[-30, 30]`. -/
def CheckUnixEpochTimestamp (now : Int) (b : List Nat) : Except PacketErr Unit :=
  if toInt64 (getUint64BE b) - now < -MaxEpochDiff ∨
      toInt64 (getUint64BE b) - now > MaxEpochDiff then
    .error .badTimestamp
  else .ok ()

/-! ## packet.Server.Handle and packet.Client -/

deriving instance DecidableEq for Except

/-- The plaintext of a response packet: timestamp, Response tag, 16-byte
mapped address, big-endian port. -/
def responsePlain (now : Int) (ap : AddrPort) : List Nat :=
  putUint64BE (toUint64 now) ++ [MessageTypeResponse] ++ ap.addr.As16 ++
    putUint16BE ap.port

/-- Result of `(*Server).Handle`: outcome (the successful case carries the
response packet the Go code writes into `resp`), the nonce pool after the
call, and the request buffer after the call (`aead.Open` decrypts in place
into `req[24:]`). -/
structure HandleOut where
  result : Except PacketErr (List Nat)
  pool : NoncePool (List Nat)
  reqAfter : List Nat
deriving DecidableEq

/-- `(*Server).Handle`, with the system clock `now` and the 24 random bytes
`respNonce` drawn for the response passed explicitly.  Mirrors the source's
order: size gate, nonce-replay check, AEAD open (in place), timestamp check,
nonce admission, message-type check, response encoding.  The Go code calls
`Check` once and keeps mutating the same pool; here the pure pair
`p.Check now (req.take NonceSizeX)` is written out at each use site (all
occurrences denote the same value). -/
def Handle (A : AEADFns) (p : NoncePool (List Nat)) (now : Int)
    (clientAddrPort : AddrPort) (req : List Nat) (respNonce : List Nat) :
    HandleOut :=
  if req.length ≠ RequestPacketSize then ⟨.error .badPacketSize, p, req⟩
  else if (p.Check now (req.take NonceSizeX)).1 = false then
    ⟨.error .repeatedNonce, (p.Check now (req.take NonceSizeX)).2, req⟩
  else
    match A.Open (req.take NonceSizeX) (req.drop NonceSizeX) with
    | none => ⟨.error .openFailed, (p.Check now (req.take NonceSizeX)).2, req⟩
    | some plaintext =>
      match CheckUnixEpochTimestamp now plaintext with
      | .error e =>
        ⟨.error e, (p.Check now (req.take NonceSizeX)).2,
          req.take NonceSizeX ++ plaintext ++
            req.drop (NonceSizeX + plaintext.length)⟩
      | .ok _ =>
        if plaintext.getD 8 0 ≠ MessageTypeRequest then
          ⟨.error .badMessageType,
            ((p.Check now (req.take NonceSizeX)).2).Add now (req.take NonceSizeX),
            req.take NonceSizeX ++ plaintext ++
              req.drop (NonceSizeX + plaintext.length)⟩
        else
          ⟨.ok (respNonce ++ A.Seal respNonce (responsePlain now clientAddrPort)),
            ((p.Check now (req.take NonceSizeX)).2).Add now (req.take NonceSizeX),
            req.take NonceSizeX ++ plaintext ++
              req.drop (NonceSizeX + plaintext.length)⟩

/-- Result of `(*Client).ParseResponse`: outcome and the response buffer after
the call (`aead.Open` decrypts in place into `resp[24:]`). -/
structure ParseOut where
  result : Except PacketErr AddrPort
  respAfter : List Nat
deriving DecidableEq

/-- `(*Client).ParseResponse`, with the system clock `now` explicit: size
gate, AEAD open (in place), timestamp check, message-type check, then the
address is unmapped and the port decoded. -/
def ParseResponse (A : AEADFns) (now : Int) (resp : List Nat) : ParseOut :=
  if resp.length ≠ ResponsePacketSize then ⟨.error .badPacketSize, resp⟩
  else
    match A.Open (resp.take NonceSizeX) (resp.drop NonceSizeX) with
    | none => ⟨.error .openFailed, resp⟩
    | some plaintext =>
      match CheckUnixEpochTimestamp now plaintext with
      | .error e =>
        ⟨.error e, resp.take NonceSizeX ++ plaintext ++
          resp.drop (NonceSizeX + plaintext.length)⟩
      | .ok _ =>
        if plaintext.getD 8 0 ≠ MessageTypeResponse then
          ⟨.error .badMessageType, resp.take NonceSizeX ++ plaintext ++
            resp.drop (NonceSizeX + plaintext.length)⟩
        else
          ⟨.ok ⟨(AddrFrom16 ((plaintext.drop 9).take 16)).Unmap,
              getUint16BE (plaintext.drop 25)⟩,
            resp.take NonceSizeX ++ plaintext ++
              resp.drop (NonceSizeX + plaintext.length)⟩

/-- `(*Client).PutRequest`, with the clock and the 24 random nonce bytes
explicit: the request packet is `nonce || Seal(timestamp || Request-tag)`. -/
def PutRequest (A : AEADFns) (now : Int) (nonce : List Nat) : List Nat :=
  nonce ++ A.Seal nonce (putUint64BE (toUint64 now) ++ [MessageTypeRequest])

/-! ## client.Client.Get

`Get` drains the result channel produced by `Run` until the first success or
until the channel closes.  The channel is embedded as the finite list of
results received before closure, in emission order; everything else in `Get`
is sequential and modelled verbatim. -/

/-- `client.Error`.  The peer address is omitted (it never influences control
flow); `err` is the wrapped Go `error`, with `none` standing for `nil`. -/
structure ClientError where
  message : String
  packetLength : Nat
  err : Option String
deriving DecidableEq

/-- The zero value of `client.Error` (`var clientErr Error`). -/
def zeroClientError : ClientError := ⟨"", 0, none⟩

/-- `client.Result`.  The zero (invalid) `netip.AddrPort` is modelled as
`none`. -/
structure CResult where
  clientAddrPort : Option AddrPort
  errv : ClientError
deriving DecidableEq

/-- `Result.IsOk`: the address-port is valid (non-zero). -/
def CResult.IsOk (r : CResult) : Bool := r.clientAddrPort.isSome

/-- `client.OkResult`. -/
def OkResult (a : AddrPort) : CResult := ⟨some a, zeroClientError⟩

/-- `client.ErrResult`. -/
def ErrResult (e : ClientError) : CResult := ⟨none, e⟩

/-- What `Get` returns: a discovered address, the last observed error, or
`context.DeadlineExceeded`. -/
inductive GetOutcome where
  | ok (a : AddrPort)
  | lastErr (e : ClientError)
  | deadlineExceeded
deriving DecidableEq

/-- The `for result := range resultCh` loop of `Get`, with `clientErr`
threaded: return the first ok result's address; otherwise remember its error;
at closure return the deadline error when no error was recorded. -/
def getLoop : List CResult → ClientError → GetOutcome
  | [], clientErr =>
    if clientErr.err = none then .deadlineExceeded else .lastErr clientErr
  | r :: rs, _ =>
    match r.clientAddrPort with
    | some a => .ok a
    | none => getLoop rs r.errv

def defaultInterval : Int := 2
def defaultOneShotAttempts : Int := 5

/-- `(*Client).Get`: apply the zero-value defaults, impose the overall
deadline `interval * attempts` (the `context.WithTimeout` bound, returned
here as a value), and drain the outcome stream. -/
def ClientGet (interval attempts : Int) (outcomes : List CResult) :
    Int × GetOutcome :=
  ((if interval = 0 then defaultInterval else interval) *
      (if attempts = 0 then defaultOneShotAttempts else attempts),
    getLoop outcomes zeroClientError)

/-! ## Concrete test vectors used by witnesses and counterexamples -/

def cexNonce : List Nat := List.replicate 24 2

def cexRespNonce : List Nat := List.replicate 24 9

/-- A request that is valid through the timestamp check but carries message
type 1 (Response) instead of 0 (Request). -/
def cexReqBadType : List Nat :=
  cexNonce ++ shiftAEAD.Seal cexNonce (putUint64BE (toUint64 1000) ++ [1])

/-- A fully valid request stamped at epoch second 1000. -/
def cexReqGood : List Nat := PutRequest shiftAEAD 1000 cexNonce

set_option maxRecDepth 40000

/-! ## Association-list (Go map) lemmas -/

theorem mapGet_filter_pos {T : Type} [DecidableEq T] (k : T) (v : Int)
    (pred : T × Int → Bool) (l : List (T × Int))
    (h : mapGet k l = some v) (hp : pred (k, v) = true) :
    mapGet k (l.filter pred) = some v := by
  induction l with
  | nil => simp [mapGet] at h
  | cons e es ih =>
    obtain ⟨a, b⟩ := e
    rw [List.filter_cons]
    by_cases hak : a = k
    · subst hak
      have hb : b = v := by simpa [mapGet] using h
      subst hb
      rw [if_pos hp]
      simp [mapGet]
    · have h' : mapGet k es = some v := by simpa [mapGet, hak] using h
      by_cases hpe : pred (a, b) = true
      · rw [if_pos hpe]
        simpa [mapGet, hak] using ih h'
      · rw [if_neg hpe]
        exact ih h'

theorem mapGet_filter_neg {T : Type} [DecidableEq T] (k : T)
    (pred : T × Int → Bool) (l : List (T × Int))
    (h : ∀ t, (k, t) ∈ l → pred (k, t) = false) :
    mapGet k (l.filter pred) = none := by
  induction l with
  | nil => simp [mapGet]
  | cons e es ih =>
    obtain ⟨a, b⟩ := e
    rw [List.filter_cons]
    have hes : ∀ t, (k, t) ∈ es → pred (k, t) = false :=
      fun t ht => h t (List.mem_cons_of_mem _ ht)
    by_cases hpe : pred (a, b) = true
    · rw [if_pos hpe]
      by_cases hak : a = k
      · subst hak
        have hfalse := h b (List.mem_cons_self _ _)
        rw [hfalse] at hpe
        cases hpe
      · simpa [mapGet, hak] using ih hes
    · rw [if_neg hpe]
      exact ih hes

theorem mapGet_mem_eq_of_nodup {T : Type} [DecidableEq T]
    (l : List (T × Int)) (n : T) (t t0 : Int)
    (hnd : (l.map Prod.fst).Nodup) (hm : (n, t) ∈ l)
    (hg : mapGet n l = some t0) : t = t0 := by
  induction l with
  | nil => cases hm
  | cons e es ih =>
    obtain ⟨a, b⟩ := e
    rw [List.map_cons, List.nodup_cons] at hnd
    by_cases hak : a = n
    · subst hak
      have hb : b = t0 := by simpa [mapGet] using hg
      rcases List.mem_cons.mp hm with hh | hh
      · cases hh
        omega
      · exact absurd (List.mem_map_of_mem Prod.fst hh) (by simpa using hnd.1)
    · rcases List.mem_cons.mp hm with hh | hh
      · cases hh
        exact absurd rfl hak
      · exact ih hnd.2 hh (by simpa [mapGet, hak] using hg)

/-! ## NoncePool facts -/

theorem clean_no_sweep {T : Type} (p : NoncePool T) (now : Int)
    (h : now - p.lastClean ≤ p.retention) : p.clean now = p := by
  unfold NoncePool.clean
  rw [if_neg (by omega)]

theorem Check_pool_eq_clean {T : Type} [DecidableEq T] (p : NoncePool T)
    (now : Int) (n : T) : (p.Check now n).2 = p.clean now := rfl

theorem Check_fst_eq {T : Type} [DecidableEq T] (p : NoncePool T)
    (now : Int) (n : T) :
    (p.Check now n).1 = (mapGet n (p.clean now).pool).isNone := rfl

theorem clean_mapGet_of_kept {T : Type} [DecidableEq T] (p : NoncePool T)
    (now t : Int) (n : T) (hg : mapGet n p.pool = some t)
    (hkeep : now - t ≤ p.retention) :
    mapGet n (p.clean now).pool = some t := by
  unfold NoncePool.clean
  by_cases hs : now - p.lastClean > p.retention
  · rw [if_pos hs]
    exact mapGet_filter_pos n t _ p.pool hg (by simpa using hkeep)
  · rw [if_neg hs]
    exact hg

/-- Claim C2 counterexample: a pool holding nonce 0 inserted at time 0 with
retention 60 and last sweep at 0; `Check` at time 61 sweeps, removes the
queried nonce itself, and reports it as fresh even though it was present
before the call. -/
theorem Check_removes_expired_queried_nonce_cex :
    mapGet 0 (NoncePool.pool (⟨[(0, 0)], 60, 0⟩ : NoncePool Nat)) = some 0 ∧
    (NoncePool.Check (⟨[(0, 0)], 60, 0⟩ : NoncePool Nat) 61 0).1 = true ∧
    mapGet 0 (NoncePool.Check (⟨[(0, 0)], 60, 0⟩ : NoncePool Nat) 61 0).2.pool
      = none := by
  decide

/-- Claim C2 (amended): `Check(n)` returns true iff `n` is absent from the
pool *after* the lazy sweep the call may trigger; the sweep can remove the
queried nonce itself when its entry has expired (`now - added > retention`),
but a queried nonce whose entry is still within retention is never removed:
it stays in the pool with its insertion time and `Check` returns false. -/
theorem Check_fresh_iff_absent (T : Type) [DecidableEq T] (p : NoncePool T)
    (now : Int) (n : T) :
    ((p.Check now n).1 = true ↔ mapGet n (p.Check now n).2.pool = none) ∧
    (∀ t, mapGet n p.pool = some t → now - t ≤ p.retention →
      mapGet n (p.Check now n).2.pool = some t ∧ (p.Check now n).1 = false) := by
  constructor
  · rw [Check_fst_eq, Check_pool_eq_clean]
    exact Option.isNone_iff_eq_none
  · intro t hg hkeep
    have hkept := clean_mapGet_of_kept p now t n hg hkeep
    refine ⟨by rw [Check_pool_eq_clean]; exact hkept, ?_⟩
    rw [Check_fst_eq, hkept]
    rfl

/-- Witness for `Check_fresh_iff_absent`: pool holding nonce 5 inserted at
time 10, queried at time 11 with retention 60. -/
theorem Check_fresh_iff_absent_witness :
    mapGet 5 (NoncePool.Check (⟨[(5, 10)], 60, 11⟩ : NoncePool Nat) 11 5).2.pool
        = some 10 ∧
    (NoncePool.Check (⟨[(5, 10)], 60, 11⟩ : NoncePool Nat) 11 5).1 = false :=
  (Check_fresh_iff_absent Nat ⟨[(5, 10)], 60, 11⟩ 11 5).2 10 (by decide)
    (by decide)

/-- Claim C8: with retention `r`, the sweep fires during `Check` only when
more than `r` has passed since the last sweep (otherwise `clean` changes
nothing); if nonce `N` is in the pool since time `T` with the last sweep at
or before `T`, a `Check` at any time after `T + r` triggers a sweep that
removes `N` (and reports it fresh), while a `Check` for `N` within `r` of
insertion still reports `N` as present (returns false). -/
theorem NoncePool_lazy_sweep (T : Type) [DecidableEq T] (p : NoncePool T)
    (now t0 : Int) (n : T) :
    (now - p.lastClean ≤ p.retention → p.clean now = p) ∧
    (mapGet n p.pool = some t0 → p.lastClean ≤ t0 → t0 + p.retention < now →
      (p.pool.map Prod.fst).Nodup →
      (p.Check now n).1 = true ∧ mapGet n (p.Check now n).2.pool = none) ∧
    (mapGet n p.pool = some t0 → now - t0 ≤ p.retention →
      (p.Check now n).1 = false ∧ mapGet n (p.Check now n).2.pool = some t0) := by
  refine ⟨clean_no_sweep p now, ?_, ?_⟩
  · intro hg hlc hexp hnd
    have hfire : now - p.lastClean > p.retention := by omega
    have hclean : (p.clean now).pool
        = p.pool.filter (fun e => decide (now - e.2 ≤ p.retention)) := by
      unfold NoncePool.clean
      rw [if_pos hfire]
    have hnone : mapGet n (p.clean now).pool = none := by
      rw [hclean]
      refine mapGet_filter_neg n _ p.pool (fun t ht => ?_)
      have := mapGet_mem_eq_of_nodup p.pool n t t0 hnd ht hg
      subst this
      simp only [decide_eq_false_iff_not]
      omega
    refine ⟨?_, by rw [Check_pool_eq_clean]; exact hnone⟩
    rw [Check_fst_eq, hnone]
    rfl
  · intro hg hkeep
    have hkept := clean_mapGet_of_kept p now t0 n hg hkeep
    refine ⟨?_, by rw [Check_pool_eq_clean]; exact hkept⟩
    rw [Check_fst_eq, hkept]
    rfl

/-- Witness for `NoncePool_lazy_sweep`: nonce 3 inserted at time 0, retention
60, last sweep at 0, checked at time 61 — swept away and reported fresh. -/
theorem NoncePool_lazy_sweep_witness :
    (NoncePool.Check (⟨[(3, 0)], 60, 0⟩ : NoncePool Nat) 61 3).1 = true ∧
    mapGet 3 (NoncePool.Check (⟨[(3, 0)], 60, 0⟩ : NoncePool Nat) 61 3).2.pool
      = none :=
  (NoncePool_lazy_sweep Nat ⟨[(3, 0)], 60, 0⟩ 61 0 3).2.1 (by decide) (by decide)
    (by decide) (by decide)

/-! ## Timestamp-check facts -/

theorem decode_encode_ts (x : Int) (h1 : -2^63 ≤ x) (h2 : x < 2^63)
    (rest : List Nat) :
    toInt64 (getUint64BE (putUint64BE (toUint64 x) ++ rest)) = x := by
  rw [putUint64BE_getUint64BE _ _ (toUint64_lt x)]
  exact toInt64_toUint64 x h1 h2

theorem CheckTs_error_eq (now : Int) (b : List Nat) (e : PacketErr)
    (h : CheckUnixEpochTimestamp now b = .error e) : e = .badTimestamp := by
  unfold CheckUnixEpochTimestamp at h
  split at h
  · cases h
    rfl
  · cases h

theorem CheckTs_ok_iff (now : Int) (b : List Nat) :
    CheckUnixEpochTimestamp now b = .ok () ↔
      -MaxEpochDiff ≤ toInt64 (getUint64BE b) - now ∧
      toInt64 (getUint64BE b) - now ≤ MaxEpochDiff := by
  unfold CheckUnixEpochTimestamp
  split
  · constructor
    · intro h
      cases h
    · intro h
      unfold MaxEpochDiff at *
      omega
  · constructor
    · intro _
      unfold MaxEpochDiff at *
      omega
    · intro _
      rfl

/-! ## Handle branch dissection -/

theorem Handle_badSize (A : AEADFns) (p : NoncePool (List Nat)) (now : Int)
    (ap : AddrPort) (req rn : List Nat) (h : req.length ≠ RequestPacketSize) :
    Handle A p now ap req rn = ⟨.error .badPacketSize, p, req⟩ := by
  unfold Handle
  rw [if_pos h]

theorem Handle_repeated (A : AEADFns) (p : NoncePool (List Nat)) (now : Int)
    (ap : AddrPort) (req rn : List Nat) (hlen : req.length = RequestPacketSize)
    (hck : (p.Check now (req.take NonceSizeX)).1 = false) :
    Handle A p now ap req rn =
      ⟨.error .repeatedNonce, (p.Check now (req.take NonceSizeX)).2, req⟩ := by
  unfold Handle
  rw [if_neg (by simp [hlen]), if_pos hck]

theorem Handle_openFailed (A : AEADFns) (p : NoncePool (List Nat)) (now : Int)
    (ap : AddrPort) (req rn : List Nat) (hlen : req.length = RequestPacketSize)
    (hck : (p.Check now (req.take NonceSizeX)).1 = true)
    (hopen : A.Open (req.take NonceSizeX) (req.drop NonceSizeX) = none) :
    Handle A p now ap req rn =
      ⟨.error .openFailed, (p.Check now (req.take NonceSizeX)).2, req⟩ := by
  unfold Handle
  rw [if_neg (by simp [hlen]), if_neg (by simp [hck]), hopen]

theorem Handle_tsFailed (A : AEADFns) (p : NoncePool (List Nat)) (now : Int)
    (ap : AddrPort) (req rn pt : List Nat) (e : PacketErr)
    (hlen : req.length = RequestPacketSize)
    (hck : (p.Check now (req.take NonceSizeX)).1 = true)
    (hopen : A.Open (req.take NonceSizeX) (req.drop NonceSizeX) = some pt)
    (hts : CheckUnixEpochTimestamp now pt = .error e) :
    Handle A p now ap req rn =
      ⟨.error e, (p.Check now (req.take NonceSizeX)).2,
        req.take NonceSizeX ++ pt ++ req.drop (NonceSizeX + pt.length)⟩ := by
  unfold Handle
  rw [if_neg (by simp [hlen]), if_neg (by simp [hck]), hopen]
  simp only [hts]

theorem Handle_badType (A : AEADFns) (p : NoncePool (List Nat)) (now : Int)
    (ap : AddrPort) (req rn pt : List Nat)
    (hlen : req.length = RequestPacketSize)
    (hck : (p.Check now (req.take NonceSizeX)).1 = true)
    (hopen : A.Open (req.take NonceSizeX) (req.drop NonceSizeX) = some pt)
    (hts : CheckUnixEpochTimestamp now pt = .ok ())
    (hty : pt.getD 8 0 ≠ MessageTypeRequest) :
    Handle A p now ap req rn =
      ⟨.error .badMessageType,
        ((p.Check now (req.take NonceSizeX)).2).Add now (req.take NonceSizeX),
        req.take NonceSizeX ++ pt ++ req.drop (NonceSizeX + pt.length)⟩ := by
  unfold Handle
  rw [if_neg (by simp [hlen]), if_neg (by simp [hck]), hopen]
  simp only [hts]
  rw [if_pos hty]

theorem Handle_ok (A : AEADFns) (p : NoncePool (List Nat)) (now : Int)
    (ap : AddrPort) (req rn pt : List Nat)
    (hlen : req.length = RequestPacketSize)
    (hck : (p.Check now (req.take NonceSizeX)).1 = true)
    (hopen : A.Open (req.take NonceSizeX) (req.drop NonceSizeX) = some pt)
    (hts : CheckUnixEpochTimestamp now pt = .ok ())
    (hty : pt.getD 8 0 = MessageTypeRequest) :
    Handle A p now ap req rn =
      ⟨.ok (rn ++ A.Seal rn (responsePlain now ap)),
        ((p.Check now (req.take NonceSizeX)).2).Add now (req.take NonceSizeX),
        req.take NonceSizeX ++ pt ++ req.drop (NonceSizeX + pt.length)⟩ := by
  unfold Handle
  rw [if_neg (by simp [hlen]), if_neg (by simp [hck]), hopen]
  simp only [hts]
  rw [if_neg (not_not_intro hty)]

/-- A request of the right size never yields `badPacketSize`. -/
theorem Handle_not_badSize (A : AEADFns) (p : NoncePool (List Nat)) (now : Int)
    (ap : AddrPort) (req rn : List Nat)
    (hlen : req.length = RequestPacketSize) :
    (Handle A p now ap req rn).result ≠ .error .badPacketSize := by
  by_cases hck : (p.Check now (req.take NonceSizeX)).1 = false
  · rw [Handle_repeated A p now ap req rn hlen hck]
    simp
  · have hck' : (p.Check now (req.take NonceSizeX)).1 = true := by
      cases hb : (p.Check now (req.take NonceSizeX)).1
      · exact absurd hb hck
      · rfl
    cases hopen : A.Open (req.take NonceSizeX) (req.drop NonceSizeX) with
    | none =>
      rw [Handle_openFailed A p now ap req rn hlen hck' hopen]
      simp
    | some pt =>
      cases hts : CheckUnixEpochTimestamp now pt with
      | error e =>
        rw [Handle_tsFailed A p now ap req rn pt e hlen hck' hopen hts]
        have he := CheckTs_error_eq now pt e hts
        subst he
        simp
      | ok u =>
        cases u
        by_cases hty : pt.getD 8 0 = MessageTypeRequest
        · rw [Handle_ok A p now ap req rn pt hlen hck' hopen hts hty]
          simp
        · rw [Handle_badType A p now ap req rn pt hlen hck' hopen hts hty]
          simp

/-! ## ParseResponse branch dissection -/

theorem Parse_badSize (A : AEADFns) (now : Int) (resp : List Nat)
    (h : resp.length ≠ ResponsePacketSize) :
    ParseResponse A now resp = ⟨.error .badPacketSize, resp⟩ := by
  unfold ParseResponse
  rw [if_pos h]

theorem Parse_openFailed (A : AEADFns) (now : Int) (resp : List Nat)
    (hlen : resp.length = ResponsePacketSize)
    (hopen : A.Open (resp.take NonceSizeX) (resp.drop NonceSizeX) = none) :
    ParseResponse A now resp = ⟨.error .openFailed, resp⟩ := by
  unfold ParseResponse
  rw [if_neg (by simp [hlen]), hopen]

theorem Parse_tsFailed (A : AEADFns) (now : Int) (resp pt : List Nat)
    (e : PacketErr) (hlen : resp.length = ResponsePacketSize)
    (hopen : A.Open (resp.take NonceSizeX) (resp.drop NonceSizeX) = some pt)
    (hts : CheckUnixEpochTimestamp now pt = .error e) :
    ParseResponse A now resp =
      ⟨.error e, resp.take NonceSizeX ++ pt ++
        resp.drop (NonceSizeX + pt.length)⟩ := by
  unfold ParseResponse
  rw [if_neg (by simp [hlen]), hopen]
  simp only [hts]

theorem Parse_badType (A : AEADFns) (now : Int) (resp pt : List Nat)
    (hlen : resp.length = ResponsePacketSize)
    (hopen : A.Open (resp.take NonceSizeX) (resp.drop NonceSizeX) = some pt)
    (hts : CheckUnixEpochTimestamp now pt = .ok ())
    (hty : pt.getD 8 0 ≠ MessageTypeResponse) :
    ParseResponse A now resp =
      ⟨.error .badMessageType, resp.take NonceSizeX ++ pt ++
        resp.drop (NonceSizeX + pt.length)⟩ := by
  unfold ParseResponse
  rw [if_neg (by simp [hlen]), hopen]
  simp only [hts]
  rw [if_pos hty]

theorem Parse_ok (A : AEADFns) (now : Int) (resp pt : List Nat)
    (hlen : resp.length = ResponsePacketSize)
    (hopen : A.Open (resp.take NonceSizeX) (resp.drop NonceSizeX) = some pt)
    (hts : CheckUnixEpochTimestamp now pt = .ok ())
    (hty : pt.getD 8 0 = MessageTypeResponse) :
    ParseResponse A now resp =
      ⟨.ok ⟨(AddrFrom16 ((pt.drop 9).take 16)).Unmap,
          getUint16BE (pt.drop 25)⟩,
        resp.take NonceSizeX ++ pt ++
          resp.drop (NonceSizeX + pt.length)⟩ := by
  unfold ParseResponse
  rw [if_neg (by simp [hlen]), hopen]
  simp only [hts]
  rw [if_neg (not_not_intro hty)]

/-- Claim C5: `CheckUnixEpochTimestamp` accepts a buffer iff the signed
difference between the decoded timestamp and the current Unix time lies
within ±30 seconds inclusive; for an encoded offset from `now`, offsets in
`[-30, 30]` pass and anything outside (in particular ±31) fails with the
bad-timestamp error.  (The function never sees authentication state, so the
result is independent of it.) -/
theorem CheckUnixEpochTimestamp_window (now off : Int) (b : List Nat)
    (h1 : -2^63 ≤ now + off) (h2 : now + off < 2^63) :
    (CheckUnixEpochTimestamp now b = .ok () ↔
      -30 ≤ toInt64 (getUint64BE b) - now ∧
      toInt64 (getUint64BE b) - now ≤ 30) ∧
    (CheckUnixEpochTimestamp now (putUint64BE (toUint64 (now + off))) = .ok ()
      ↔ -30 ≤ off ∧ off ≤ 30) ∧
    ((off < -30 ∨ 30 < off) →
      CheckUnixEpochTimestamp now (putUint64BE (toUint64 (now + off)))
        = .error .badTimestamp) := by
  have hdec : toInt64 (getUint64BE (putUint64BE (toUint64 (now + off))))
      = now + off := by
    have h := decode_encode_ts (now + off) h1 h2 []
    simpa using h
  refine ⟨?_, ?_, ?_⟩
  · have h := CheckTs_ok_iff now b
    unfold MaxEpochDiff at h
    exact h
  · rw [CheckTs_ok_iff, hdec]
    unfold MaxEpochDiff
    constructor
    · intro h
      omega
    · intro h
      omega
  · intro hoff
    unfold CheckUnixEpochTimestamp
    rw [hdec]
    rw [if_pos (by unfold MaxEpochDiff; omega)]

/-- Witness for `CheckUnixEpochTimestamp_window` at `now = 1700000000`:
offset +30 passes, offset +31 fails. -/
theorem CheckUnixEpochTimestamp_window_witness :
    (CheckUnixEpochTimestamp 1700000000
      (putUint64BE (toUint64 (1700000000 + 30))) = .ok ()) ∧
    (CheckUnixEpochTimestamp 1700000000
      (putUint64BE (toUint64 (1700000000 + 31))) = .error .badTimestamp) :=
  ⟨(CheckUnixEpochTimestamp_window 1700000000 30 [] (by decide)
      (by decide)).2.1.mpr (by decide),
   (CheckUnixEpochTimestamp_window 1700000000 31 [] (by decide)
      (by decide)).2.2 (Or.inr (by decide))⟩

/-- A response of the right size never yields `badPacketSize`. -/
theorem Parse_not_badSize (A : AEADFns) (now : Int) (resp : List Nat)
    (hlen : resp.length = ResponsePacketSize) :
    (ParseResponse A now resp).result ≠ .error .badPacketSize := by
  cases hopen : A.Open (resp.take NonceSizeX) (resp.drop NonceSizeX) with
  | none =>
    rw [Parse_openFailed A now resp hlen hopen]
    simp
  | some pt =>
    cases hts : CheckUnixEpochTimestamp now pt with
    | error e =>
      rw [Parse_tsFailed A now resp pt e hlen hopen hts]
      have he := CheckTs_error_eq now pt e hts
      subst he
      simp
    | ok u =>
      cases u
      by_cases hty : pt.getD 8 0 = MessageTypeResponse
      · rw [Parse_ok A now resp pt hlen hopen hts hty]
        simp
      · rw [Parse_badType A now resp pt hlen hopen hts hty]
        simp

/-- Claim C6: request packets are exactly 49 bytes and response packets
exactly 67 bytes; `Handle` returns the bad-size error iff the request length
differs from 49, `ParseResponse` returns it iff the input length differs
from 67, and in that case nothing else has happened: the pool and the input
buffer are untouched. -/
theorem packet_size_gate (A : AEADFns) (p : NoncePool (List Nat))
    (now t2 : Int) (ap : AddrPort) (req rn resp : List Nat) :
    RequestPacketSize = 49 ∧ ResponsePacketSize = 67 ∧
    ((Handle A p now ap req rn).result = .error .badPacketSize ↔
      req.length ≠ 49) ∧
    ((Handle A p now ap req rn).result = .error .badPacketSize →
      (Handle A p now ap req rn).pool = p ∧
      (Handle A p now ap req rn).reqAfter = req) ∧
    ((ParseResponse A t2 resp).result = .error .badPacketSize ↔
      resp.length ≠ 67) ∧
    ((ParseResponse A t2 resp).result = .error .badPacketSize →
      (ParseResponse A t2 resp).respAfter = resp) := by
  have hreq49 : RequestPacketSize = 49 := by decide
  have hresp67 : ResponsePacketSize = 67 := by decide
  refine ⟨hreq49, hresp67, ?_, ?_, ?_, ?_⟩
  · constructor
    · intro h hlen
      exact Handle_not_badSize A p now ap req rn (by rw [hreq49]; exact hlen) h
    · intro hlen
      rw [Handle_badSize A p now ap req rn (by rw [hreq49]; exact hlen)]
  · intro h
    by_cases hlen : req.length = RequestPacketSize
    · exact absurd h (Handle_not_badSize A p now ap req rn hlen)
    · rw [Handle_badSize A p now ap req rn hlen]
      exact ⟨rfl, rfl⟩
  · constructor
    · intro h hlen
      exact Parse_not_badSize A t2 resp (by rw [hresp67]; exact hlen) h
    · intro hlen
      rw [Parse_badSize A t2 resp (by rw [hresp67]; exact hlen)]
  · intro h
    by_cases hlen : resp.length = ResponsePacketSize
    · exact absurd h (Parse_not_badSize A t2 resp hlen)
    · rw [Parse_badSize A t2 resp hlen]

/-- Witness for `packet_size_gate`: the empty packet is rejected by both
decode paths with the bad-size error and no state change. -/
theorem packet_size_gate_witness :
    (Handle shiftAEAD (NoncePool.New (List Nat) 60 0) 0 ⟨.v4 1 2 3 4, 5⟩
      [] []).result = .error .badPacketSize ∧
    (Handle shiftAEAD (NoncePool.New (List Nat) 60 0) 0 ⟨.v4 1 2 3 4, 5⟩
      [] []).pool = NoncePool.New (List Nat) 60 0 ∧
    (Handle shiftAEAD (NoncePool.New (List Nat) 60 0) 0 ⟨.v4 1 2 3 4, 5⟩
      [] []).reqAfter = [] ∧
    (ParseResponse shiftAEAD 0 []).result = .error .badPacketSize :=
  have h := packet_size_gate shiftAEAD (NoncePool.New (List Nat) 60 0) 0 0
    ⟨.v4 1 2 3 4, 5⟩ [] [] []
  have hbad := h.2.2.1.mpr (by decide)
  ⟨hbad, (h.2.2.2.1 hbad).1, (h.2.2.2.1 hbad).2, h.2.2.2.2.1.mpr (by decide)⟩

/-! ## Cache discipline of Handle (claims C1, C4) -/

theorem bool_true_of_not_false {b : Bool} (h : ¬ b = false) : b = true := by
  cases b
  · exact absurd rfl h
  · rfl

theorem clean_pool_subset {T : Type} (p : NoncePool T) (now : Int) :
    ∀ x ∈ (p.clean now).pool, x ∈ p.pool := by
  intro x hx
  unfold NoncePool.clean at hx
  by_cases hs : now - p.lastClean > p.retention
  · rw [if_pos hs] at hx
    exact List.mem_of_mem_filter hx
  · rw [if_neg hs] at hx
    exact hx

theorem clean_retention {T : Type} (p : NoncePool T) (now : Int) :
    (p.clean now).retention = p.retention := by
  unfold NoncePool.clean
  split <;> rfl

/-- On success, the pool after `Handle` is the swept pool with the request's
nonce admitted. -/
theorem Handle_ok_pool (A : AEADFns) (p : NoncePool (List Nat)) (now : Int)
    (ap : AddrPort) (req rn out : List Nat)
    (hlen : req.length = RequestPacketSize)
    (h : (Handle A p now ap req rn).result = .ok out) :
    (Handle A p now ap req rn).pool
      = ((p.Check now (req.take NonceSizeX)).2).Add now (req.take NonceSizeX) := by
  by_cases hck : (p.Check now (req.take NonceSizeX)).1 = false
  · rw [Handle_repeated A p now ap req rn hlen hck] at h
    simp at h
  · have hck' := bool_true_of_not_false hck
    cases hopen : A.Open (req.take NonceSizeX) (req.drop NonceSizeX) with
    | none =>
      rw [Handle_openFailed A p now ap req rn hlen hck' hopen] at h
      simp at h
    | some pt =>
      cases hts : CheckUnixEpochTimestamp now pt with
      | error e =>
        rw [Handle_tsFailed A p now ap req rn pt e hlen hck' hopen hts] at h
        simp at h
      | ok u =>
        cases u
        by_cases hty : pt.getD 8 0 = MessageTypeRequest
        · rw [Handle_ok A p now ap req rn pt hlen hck' hopen hts hty]
        · rw [Handle_badType A p now ap req rn pt hlen hck' hopen hts hty] at h
          simp at h

/-- Claim C1 counterexample: a request that is fresh, authentic, and
timestamp-valid but carries message type 1 instead of 0 makes `Handle`
return an error while the nonce has nevertheless been added to the cache
(the pool grows from empty to one entry). -/
theorem Handle_badMessageType_adds_nonce_cex :
    (Handle shiftAEAD (NoncePool.New (List Nat) 60 1000) 1000 ⟨.v4 1 2 3 4, 9⟩
      cexReqBadType cexRespNonce).result = .error .badMessageType ∧
    (Handle shiftAEAD (NoncePool.New (List Nat) 60 1000) 1000 ⟨.v4 1 2 3 4, 9⟩
      cexReqBadType cexRespNonce).pool.pool = [(cexNonce, 1000)] ∧
    (NoncePool.New (List Nat) 60 1000).pool = [] := by
  decide

/-- Claim C1 (amended): on every `Handle` error other than the bad-message-
type error, no nonce is added to the cache — every entry of the post-call
pool was already present before the call (the lazy sweep may only remove
expired entries).  The nonce is admitted exactly when size, replay, AEAD
open and timestamp validation all succeed, which happens before the
message-type check, so a call that fails with the bad-message-type error has
already added its nonce. -/
theorem Handle_cache_discipline (A : AEADFns) (p : NoncePool (List Nat))
    (now : Int) (ap : AddrPort) (req rn : List Nat) :
    (∀ e, (Handle A p now ap req rn).result = .error e →
      e ≠ .badMessageType →
      ∀ x t, (x, t) ∈ (Handle A p now ap req rn).pool.pool →
        (x, t) ∈ p.pool) ∧
    ((Handle A p now ap req rn).result = .error .badMessageType →
      (Handle A p now ap req rn).pool
        = ((p.Check now (req.take NonceSizeX)).2).Add now (req.take NonceSizeX)) ∧
    (∀ out, (Handle A p now ap req rn).result = .ok out →
      (Handle A p now ap req rn).pool
        = ((p.Check now (req.take NonceSizeX)).2).Add now (req.take NonceSizeX)) := by
  by_cases hlen : req.length = RequestPacketSize
  · by_cases hck : (p.Check now (req.take NonceSizeX)).1 = false
    · rw [Handle_repeated A p now ap req rn hlen hck]
      refine ⟨?_, ?_, ?_⟩
      · intro e he hne x t hx
        exact clean_pool_subset p now (x, t) hx
      · intro h
        simp at h
      · intro out h
        simp at h
    · have hck' := bool_true_of_not_false hck
      cases hopen : A.Open (req.take NonceSizeX) (req.drop NonceSizeX) with
      | none =>
        rw [Handle_openFailed A p now ap req rn hlen hck' hopen]
        refine ⟨?_, ?_, ?_⟩
        · intro e he hne x t hx
          exact clean_pool_subset p now (x, t) hx
        · intro h
          simp at h
        · intro out h
          simp at h
      | some pt =>
        cases hts : CheckUnixEpochTimestamp now pt with
        | error e' =>
          rw [Handle_tsFailed A p now ap req rn pt e' hlen hck' hopen hts]
          refine ⟨?_, ?_, ?_⟩
          · intro e he hne x t hx
            exact clean_pool_subset p now (x, t) hx
          · intro h
            have he' := CheckTs_error_eq now pt e' hts
            subst he'
            simp at h
          · intro out h
            simp at h
        | ok u =>
          cases u
          by_cases hty : pt.getD 8 0 = MessageTypeRequest
          · rw [Handle_ok A p now ap req rn pt hlen hck' hopen hts hty]
            refine ⟨?_, ?_, ?_⟩
            · intro e he hne x t hx
              simp at he
            · intro h
              simp at h
            · intro out h
              rfl
          · rw [Handle_badType A p now ap req rn pt hlen hck' hopen hts hty]
            refine ⟨?_, ?_, ?_⟩
            · intro e he hne x t hx
              have he' : e = PacketErr.badMessageType := by
                have := he
                simp at this
                exact this.symm
              exact absurd he' hne
            · intro h
              rfl
            · intro out h
              simp at h
  · rw [Handle_badSize A p now ap req rn hlen]
    refine ⟨?_, ?_, ?_⟩
    · intro e he hne x t hx
      exact hx
    · intro h
      simp at h
    · intro out h
      simp at h

/-- Witness for `Handle_cache_discipline`: an undersized request fails with
the bad-size error and the pre-existing pool entry is still the only thing
the post-call pool can contain. -/
theorem Handle_cache_discipline_witness :
    (Handle shiftAEAD (⟨[([7], 5)], 60, 5⟩ : NoncePool (List Nat)) 5
      ⟨.v4 1 2 3 4, 9⟩ [] []).result = .error .badPacketSize ∧
    ([7], (5 : Int)) ∈ (⟨[([7], 5)], 60, 5⟩ : NoncePool (List Nat)).pool :=
  ⟨by decide,
   (Handle_cache_discipline shiftAEAD ⟨[([7], 5)], 60, 5⟩ 5 ⟨.v4 1 2 3 4, 9⟩
      [] []).1 .badPacketSize (by decide) (by decide) [7] 5 (by decide)⟩

/-- Claim C4: a request accepted by `Handle` and replayed byte-identically
within the retention window against the resulting pool is rejected with the
repeated-nonce error. -/
theorem Handle_replay_rejected (A : AEADFns) (p : NoncePool (List Nat))
    (t t2 : Int) (ap ap2 : AddrPort) (req rn rn2 out : List Nat)
    (h1 : (Handle A p t ap req rn).result = .ok out)
    (h2 : t2 - t ≤ p.retention) :
    (Handle A ((Handle A p t ap req rn).pool) t2 ap2 req rn2).result
      = .error .repeatedNonce := by
  have hlen : req.length = RequestPacketSize := by
    by_contra hlen
    rw [Handle_badSize A p t ap req rn hlen] at h1
    simp at h1
  have hpool := Handle_ok_pool A p t ap req rn out hlen h1
  have hq : mapGet (req.take NonceSizeX) (Handle A p t ap req rn).pool.pool
      = some t := by
    rw [hpool]
    simp [NoncePool.Add, mapGet]
  have hret : (Handle A p t ap req rn).pool.retention = p.retention := by
    rw [hpool]
    show ((p.Check t (req.take NonceSizeX)).2).retention = p.retention
    rw [Check_pool_eq_clean]
    exact clean_retention p t
  have hck2 : (((Handle A p t ap req rn).pool).Check t2
      (req.take NonceSizeX)).1 = false := by
    rw [Check_fst_eq]
    have hkept := clean_mapGet_of_kept ((Handle A p t ap req rn).pool) t2 t
      (req.take NonceSizeX) hq (by rw [hret]; exact h2)
    rw [hkept]
    rfl
  rw [Handle_repeated A ((Handle A p t ap req rn).pool) t2 ap2 req rn2 hlen hck2]

/-- Witness for `Handle_replay_rejected`: a fresh valid request accepted at
time 1000 and replayed at time 1010. -/
theorem Handle_replay_rejected_witness :
    (Handle shiftAEAD (NoncePool.New (List Nat) 60 900) 1000
        ⟨.v4 198 51 100 9, 443⟩ cexReqGood cexRespNonce).result
      = .ok (cexRespNonce ++ shiftAEAD.Seal cexRespNonce
          (responsePlain 1000 ⟨.v4 198 51 100 9, 443⟩)) ∧
    (Handle shiftAEAD ((Handle shiftAEAD (NoncePool.New (List Nat) 60 900)
        1000 ⟨.v4 198 51 100 9, 443⟩ cexReqGood cexRespNonce).pool) 1010
        ⟨.v4 1 2 3 4, 9⟩ cexReqGood cexRespNonce).result
      = .error .repeatedNonce :=
  ⟨by decide,
   Handle_replay_rejected shiftAEAD (NoncePool.New (List Nat) 60 900) 1000 1010
     ⟨.v4 198 51 100 9, 443⟩ ⟨.v4 1 2 3 4, 9⟩ cexReqGood cexRespNonce
     cexRespNonce
     (cexRespNonce ++ shiftAEAD.Seal cexRespNonce
       (responsePlain 1000 ⟨.v4 198 51 100 9, 443⟩))
     (by decide) (by decide)⟩

/-! ## Decoding a well-formed sealed response (claims C3, C9) -/

/-- Parsing a response built as the server builds it — nonce, sealed
timestamp, Response tag, 16 address bytes, port — succeeds and yields the
unmapped address and the port. -/
theorem Parse_of_sealed (A : AEADFns) (hA : AEADCorrect A) (tS tC : Int)
    (respNonce addr16 : List Nat) (port : Nat)
    (hn : respNonce.length = 24) (h16 : addr16.length = 16)
    (hab : ∀ y ∈ addr16, y < 256) (hport : port < 2^16)
    (hr1 : -2^63 ≤ tS) (hr2 : tS < 2^63)
    (hf1 : -30 ≤ tS - tC) (hf2 : tS - tC ≤ 30) :
    (ParseResponse A tC (respNonce ++ A.Seal respNonce
        (putUint64BE (toUint64 tS) ++ [MessageTypeResponse] ++ addr16 ++
          putUint16BE port))).result
      = .ok ⟨(AddrFrom16 addr16).Unmap, port⟩ := by
  set pt := putUint64BE (toUint64 tS) ++ [MessageTypeResponse] ++ addr16 ++
    putUint16BE port with hpt
  have hptlen : pt.length = 27 := by
    rw [hpt]
    simp [putUint64BE, putUint16BE, h16]
  have hptb : ∀ y ∈ pt, y < 256 := by
    rw [hpt]
    intro y hy
    simp only [List.append_assoc, List.mem_append, List.mem_singleton] at hy
    rcases hy with h8 | h1 | ha | hp
    · exact putUint64BE_bytes_lt _ y h8
    · subst h1
      decide
    · exact hab y ha
    · exact putUint16BE_bytes_lt _ y hp
  have hresp_take : (respNonce ++ A.Seal respNonce pt).take NonceSizeX
      = respNonce := List.take_left' hn
  have hresp_drop : (respNonce ++ A.Seal respNonce pt).drop NonceSizeX
      = A.Seal respNonce pt := List.drop_left' hn
  have hresplen : (respNonce ++ A.Seal respNonce pt).length
      = ResponsePacketSize := by
    have h : (respNonce ++ A.Seal respNonce pt).length = 67 := by
      rw [List.length_append, hn, hA.1 respNonce pt, hptlen]
    exact h
  have hopen : A.Open ((respNonce ++ A.Seal respNonce pt).take NonceSizeX)
      ((respNonce ++ A.Seal respNonce pt).drop NonceSizeX) = some pt := by
    rw [hresp_take, hresp_drop]
    exact hA.2 respNonce pt hptb
  have hts : CheckUnixEpochTimestamp tC pt = .ok () := by
    rw [CheckTs_ok_iff]
    have hdec : toInt64 (getUint64BE pt) = tS := by
      rw [hpt, List.append_assoc, List.append_assoc]
      exact decode_encode_ts tS hr1 hr2 _
    rw [hdec]
    unfold MaxEpochDiff
    omega
  have hty : pt.getD 8 0 = MessageTypeResponse := by
    rw [hpt, List.append_assoc, List.append_assoc]
    rfl
  rw [Parse_ok A tC (respNonce ++ A.Seal respNonce pt) pt hresplen hopen
    hts hty]
  have hdrop9 : pt.drop 9 = addr16 ++ putUint16BE port := by
    rw [hpt, List.append_assoc]
    exact List.drop_left' (by simp [putUint64BE])
  have htake16 : (addr16 ++ putUint16BE port).take 16 = addr16 :=
    List.take_left' h16
  have hdrop25 : pt.drop 25 = putUint16BE port := by
    rw [hpt]
    exact List.drop_left' (by simp [putUint64BE, h16])
  have hport' : getUint16BE (putUint16BE port) = port := by
    have h := putUint16BE_getUint16BE port [] hport
    simpa using h
  rw [hdrop9, htake16, hdrop25, hport']

/-- The wire form of the IPv4-mapped address ::ffff:203.0.113.5. -/
def mappedAddr16 : List Nat := v4InV6Front ++ [203, 0, 113, 5]

/-- Claim C3 counterexample: the valid IPv4-mapped IPv6 client address
::ffff:203.0.113.5 with port 51820, fresh timestamps and matching key, does
not round-trip to itself — the client decodes the unmapped IPv4 form, a
different `netip.Addr` value. -/
theorem response_roundtrip_mapped_cex :
    (Addr.v6 mappedAddr16).wf = true ∧
    (Handle shiftAEAD (NoncePool.New (List Nat) 60 1000) 1000
        ⟨.v6 mappedAddr16, 51820⟩ cexReqGood cexRespNonce).result
      = .ok (cexRespNonce ++ shiftAEAD.Seal cexRespNonce
          (responsePlain 1000 ⟨.v6 mappedAddr16, 51820⟩)) ∧
    (ParseResponse shiftAEAD 1000
        (cexRespNonce ++ shiftAEAD.Seal cexRespNonce
          (responsePlain 1000 ⟨.v6 mappedAddr16, 51820⟩))).result
      = .ok ⟨.v4 203 0 113 5, 51820⟩ ∧
    (⟨.v4 203 0 113 5, 51820⟩ : AddrPort) ≠ ⟨.v6 mappedAddr16, 51820⟩ := by
  decide

/-- Claim C3 (amended): for every well-formed client address/port whose
address equals its own `Unmap` (every IPv4 address, and every IPv6 address
not of the IPv4-mapped form) with fresh timestamps and the same AEAD on both
sides, encoding a response via `Handle` and decoding it via `ParseResponse`
yields exactly the same address/port; an IPv4 address like 203.0.113.5
travels in its 16-byte mapped form and still round-trips exactly.
(IPv4-mapped IPv6 inputs instead decode to their unmapped IPv4 form.) -/
theorem response_roundtrip (A : AEADFns) (p : NoncePool (List Nat))
    (ap : AddrPort) (reqNonce respNonce : List Nat) (tReq tS tC : Int)
    (hA : AEADCorrect A)
    (hwf : ap.addr.wf = true) (hun : ap.addr.Unmap = ap.addr)
    (hport : ap.port < 2^16)
    (hreqn : reqNonce.length = 24) (hrespn : respNonce.length = 24)
    (hfresh : mapGet reqNonce (p.clean tS).pool = none)
    (hq1 : -2^63 ≤ tReq) (hq2 : tReq < 2^63)
    (hqf1 : -30 ≤ tReq - tS) (hqf2 : tReq - tS ≤ 30)
    (hs1 : -2^63 ≤ tS) (hs2 : tS < 2^63)
    (hsf1 : -30 ≤ tS - tC) (hsf2 : tS - tC ≤ 30) :
    (Handle A p tS ap (PutRequest A tReq reqNonce) respNonce).result
      = .ok (respNonce ++ A.Seal respNonce (responsePlain tS ap)) ∧
    (ParseResponse A tC
        (respNonce ++ A.Seal respNonce (responsePlain tS ap))).result
      = .ok ap := by
  obtain ⟨addr, port⟩ := ap
  have hreqpt : ∀ y ∈ putUint64BE (toUint64 tReq) ++ [MessageTypeRequest],
      y < 256 := by
    intro y hy
    rcases List.mem_append.mp hy with h8 | h1
    · exact putUint64BE_bytes_lt _ y h8
    · rcases List.mem_singleton.mp h1 with rfl
      decide
  have hreq_take : (PutRequest A tReq reqNonce).take NonceSizeX = reqNonce := by
    unfold PutRequest
    exact List.take_left' hreqn
  have hreq_drop : (PutRequest A tReq reqNonce).drop NonceSizeX
      = A.Seal reqNonce (putUint64BE (toUint64 tReq) ++ [MessageTypeRequest]) := by
    unfold PutRequest
    exact List.drop_left' hreqn
  have hreqlen : (PutRequest A tReq reqNonce).length = RequestPacketSize := by
    have h : (PutRequest A tReq reqNonce).length = 49 := by
      unfold PutRequest
      rw [List.length_append, hreqn, hA.1]
      simp [putUint64BE]
    exact h
  have hck : (p.Check tS ((PutRequest A tReq reqNonce).take NonceSizeX)).1
      = true := by
    rw [hreq_take, Check_fst_eq, hfresh]
    rfl
  have hopen : A.Open ((PutRequest A tReq reqNonce).take NonceSizeX)
      ((PutRequest A tReq reqNonce).drop NonceSizeX)
      = some (putUint64BE (toUint64 tReq) ++ [MessageTypeRequest]) := by
    rw [hreq_take, hreq_drop]
    exact hA.2 reqNonce _ hreqpt
  have hts : CheckUnixEpochTimestamp tS
      (putUint64BE (toUint64 tReq) ++ [MessageTypeRequest]) = .ok () := by
    rw [CheckTs_ok_iff]
    rw [decode_encode_ts tReq hq1 hq2 [MessageTypeRequest]]
    unfold MaxEpochDiff
    omega
  have hty : (putUint64BE (toUint64 tReq) ++ [MessageTypeRequest]).getD 8 0
      = MessageTypeRequest := rfl
  constructor
  · rw [Handle_ok A p tS ⟨addr, port⟩ (PutRequest A tReq reqNonce) respNonce
      (putUint64BE (toUint64 tReq) ++ [MessageTypeRequest]) hreqlen hck hopen
      hts hty]
  · have h := Parse_of_sealed A hA tS tC respNonce addr.As16 port hrespn
      (As16_length addr hwf) (As16_bytes_lt addr hwf) hport hs1 hs2 hsf1 hsf2
    rw [Unmap_AddrFrom16_As16 addr hwf hun] at h
    exact h

/-- Witness for `response_roundtrip`: the IPv4 address 203.0.113.5 with port
51820, request stamped at 995, server at 1000, client parsing at 1005. -/
theorem response_roundtrip_witness :
    (Handle shiftAEAD (NoncePool.New (List Nat) 60 900) 1000
        ⟨.v4 203 0 113 5, 51820⟩ (PutRequest shiftAEAD 995 cexNonce)
        cexRespNonce).result
      = .ok (cexRespNonce ++ shiftAEAD.Seal cexRespNonce
          (responsePlain 1000 ⟨.v4 203 0 113 5, 51820⟩)) ∧
    (ParseResponse shiftAEAD 1005 (cexRespNonce ++ shiftAEAD.Seal cexRespNonce
        (responsePlain 1000 ⟨.v4 203 0 113 5, 51820⟩))).result
      = .ok ⟨.v4 203 0 113 5, 51820⟩ :=
  response_roundtrip shiftAEAD (NoncePool.New (List Nat) 60 900)
    ⟨.v4 203 0 113 5, 51820⟩ cexNonce cexRespNonce 995 1000 1005
    shiftAEAD_correct (by decide) (by decide) (by decide) (by decide)
    (by decide) (by decide) (by decide) (by decide) (by decide) (by decide)
    (by decide) (by decide) (by decide) (by decide)

/-- Claim C9: a response whose decrypted payload carries an IPv4-mapped IPv6
address ::ffff:a.b.c.d is parsed to the unmapped IPv4 address a.b.c.d, never
the mapped IPv6 form; hence a response encoding a mapped `AddrPort` decodes
to its unmapped equivalent, a different `netip.Addr` value. -/
theorem parse_unmaps_v4mapped (A : AEADFns) (a b c d port : Nat)
    (respNonce : List Nat) (tS tC : Int)
    (hA : AEADCorrect A) (ha : a < 256) (hb : b < 256) (hc : c < 256)
    (hd : d < 256) (hport : port < 2^16) (hrespn : respNonce.length = 24)
    (hs1 : -2^63 ≤ tS) (hs2 : tS < 2^63)
    (hf1 : -30 ≤ tS - tC) (hf2 : tS - tC ≤ 30) :
    (ParseResponse A tC (respNonce ++ A.Seal respNonce
        (responsePlain tS ⟨.v6 (v4InV6Front ++ [a, b, c, d]), port⟩))).result
      = .ok ⟨.v4 a b c d, port⟩ ∧
    Addr.v4 a b c d ≠ .v6 (v4InV6Front ++ [a, b, c, d]) := by
  constructor
  · have hab : ∀ y ∈ v4InV6Front ++ [a, b, c, d], y < 256 := by
      intro y hy
      rcases List.mem_append.mp hy with hf | hl
      · simp only [v4InV6Front, List.mem_cons, List.not_mem_nil, or_false] at hf
        rcases hf with rfl | rfl | rfl | rfl | rfl | rfl | rfl | rfl | rfl |
          rfl | rfl | rfl <;> omega
      · simp only [List.mem_cons, List.not_mem_nil, or_false] at hl
        rcases hl with rfl | rfl | rfl | rfl <;> assumption
    have h := Parse_of_sealed A hA tS tC respNonce
      (v4InV6Front ++ [a, b, c, d]) port hrespn (by simp [v4InV6Front]) hab hport
      hs1 hs2 hf1 hf2
    exact h
  · intro h
    cases h

/-- Witness for `parse_unmaps_v4mapped`: ::ffff:198.51.100.7 port 8080. -/
theorem parse_unmaps_v4mapped_witness :
    (ParseResponse shiftAEAD 1000 (cexRespNonce ++ shiftAEAD.Seal cexRespNonce
        (responsePlain 1000 ⟨.v6 (v4InV6Front ++ [198, 51, 100, 7]), 8080⟩))).result
      = .ok ⟨.v4 198 51 100 7, 8080⟩ ∧
    Addr.v4 198 51 100 7 ≠ .v6 (v4InV6Front ++ [198, 51, 100, 7]) :=
  parse_unmaps_v4mapped shiftAEAD 198 51 100 7 8080 cexRespNonce 1000 1000
    shiftAEAD_correct (by decide) (by decide) (by decide) (by decide)
    (by decide) (by decide) (by decide) (by decide) (by decide) (by decide)

/-! ## In-place decryption (claim C10) -/

theorem Handle_reqAfter_of_open (A : AEADFns) (p : NoncePool (List Nat))
    (now : Int) (ap : AddrPort) (req rn pt : List Nat)
    (hlen : req.length = RequestPacketSize)
    (hck : (p.Check now (req.take NonceSizeX)).1 = true)
    (hopen : A.Open (req.take NonceSizeX) (req.drop NonceSizeX) = some pt) :
    (Handle A p now ap req rn).reqAfter
      = req.take NonceSizeX ++ pt ++ req.drop (NonceSizeX + pt.length) := by
  cases hts : CheckUnixEpochTimestamp now pt with
  | error e =>
    rw [Handle_tsFailed A p now ap req rn pt e hlen hck hopen hts]
  | ok u =>
    cases u
    by_cases hty : pt.getD 8 0 = MessageTypeRequest
    · rw [Handle_ok A p now ap req rn pt hlen hck hopen hts hty]
    · rw [Handle_badType A p now ap req rn pt hlen hck hopen hts hty]

theorem Parse_respAfter_of_open (A : AEADFns) (now : Int) (resp pt : List Nat)
    (hlen : resp.length = ResponsePacketSize)
    (hopen : A.Open (resp.take NonceSizeX) (resp.drop NonceSizeX) = some pt) :
    (ParseResponse A now resp).respAfter
      = resp.take NonceSizeX ++ pt ++ resp.drop (NonceSizeX + pt.length) := by
  cases hts : CheckUnixEpochTimestamp now pt with
  | error e =>
    rw [Parse_tsFailed A now resp pt e hlen hopen hts]
  | ok u =>
    cases u
    by_cases hty : pt.getD 8 0 = MessageTypeResponse
    · rw [Parse_ok A now resp pt hlen hopen hts hty]
    · rw [Parse_badType A now resp pt hlen hopen hts hty]

/-- Overwriting a segment of a buffer with different bytes changes it. -/
theorem overwrite_ne (l pt : List Nat) (n : Nat)
    (hne : pt ≠ (l.drop n).take pt.length) :
    l.take n ++ pt ++ l.drop (n + pt.length) ≠ l := by
  intro he
  apply hne
  have he2 : l.take n ++ (pt ++ l.drop (n + pt.length))
      = l.take n ++ l.drop n := by
    rw [← List.append_assoc, he, List.take_append_drop]
  have he3 : pt ++ l.drop (n + pt.length) = l.drop n :=
    List.append_cancel_left he2
  have he4 : (pt ++ l.drop (n + pt.length)).take pt.length
      = (l.drop n).take pt.length := by
    rw [he3]
  rw [List.take_left] at he4
  exact he4

/-- Claim C10: both decode paths decrypt in place.  Whenever the AEAD open
succeeds, the input buffer after the call is its 24-byte nonce followed by
the decrypted plaintext (the tag bytes beyond it are untouched); whenever
the plaintext differs from the ciphertext bytes it replaces, the buffer is
not left unchanged. -/
theorem decrypt_in_place (A : AEADFns) (p : NoncePool (List Nat))
    (now tC : Int) (ap : AddrPort) (req rn resp pt pt2 : List Nat)
    (h1 : req.length = RequestPacketSize)
    (h2 : (p.Check now (req.take NonceSizeX)).1 = true)
    (h3 : A.Open (req.take NonceSizeX) (req.drop NonceSizeX) = some pt)
    (h4 : resp.length = ResponsePacketSize)
    (h5 : A.Open (resp.take NonceSizeX) (resp.drop NonceSizeX) = some pt2) :
    ((Handle A p now ap req rn).reqAfter
      = req.take NonceSizeX ++ pt ++ req.drop (NonceSizeX + pt.length)) ∧
    (pt ≠ (req.drop NonceSizeX).take pt.length →
      (Handle A p now ap req rn).reqAfter ≠ req) ∧
    ((ParseResponse A tC resp).respAfter
      = resp.take NonceSizeX ++ pt2 ++ resp.drop (NonceSizeX + pt2.length)) ∧
    (pt2 ≠ (resp.drop NonceSizeX).take pt2.length →
      (ParseResponse A tC resp).respAfter ≠ resp) := by
  have hreq := Handle_reqAfter_of_open A p now ap req rn pt h1 h2 h3
  have hresp := Parse_respAfter_of_open A tC resp pt2 h4 h5
  refine ⟨hreq, ?_, hresp, ?_⟩
  · intro hne
    rw [hreq]
    exact overwrite_ne req pt NonceSizeX hne
  · intro hne
    rw [hresp]
    exact overwrite_ne resp pt2 NonceSizeX hne

/-- The request plaintext of `cexReqGood`. -/
def cexReqPlain : List Nat := putUint64BE (toUint64 1000) ++ [MessageTypeRequest]

/-- The wire response produced by `Handle` for client (198.51.100.9, 443)
at time 1000, used by the in-place-decryption witness. -/
def cexResp : List Nat :=
  cexRespNonce ++ shiftAEAD.Seal cexRespNonce
    (responsePlain 1000 ⟨.v4 198 51 100 9, 443⟩)

/-- Witness for `decrypt_in_place`: a concrete valid request and response;
both buffers end up changed. -/
theorem decrypt_in_place_witness :
    (Handle shiftAEAD (NoncePool.New (List Nat) 60 1000) 1000
      ⟨.v4 198 51 100 9, 443⟩ cexReqGood cexRespNonce).reqAfter ≠ cexReqGood ∧
    (ParseResponse shiftAEAD 1000 cexResp).respAfter ≠ cexResp :=
  have h := decrypt_in_place shiftAEAD (NoncePool.New (List Nat) 60 1000)
    1000 1000 ⟨.v4 198 51 100 9, 443⟩ cexReqGood cexRespNonce cexResp
    cexReqPlain (responsePlain 1000 ⟨.v4 198 51 100 9, 443⟩)
    (by decide) (by decide) (by decide) (by decide) (by decide)
  ⟨h.2.1 (by decide), h.2.2.2 (by decide)⟩

/-! ## Client one-shot drain (claim C7) -/

theorem getLoop_first_ok (pre rest : List CResult) (a : AddrPort)
    (e0 : ClientError) (hpre : ∀ x ∈ pre, x.IsOk = false) :
    getLoop (pre ++ OkResult a :: rest) e0 = .ok a := by
  induction pre generalizing e0 with
  | nil => rfl
  | cons r rs ih =>
    have hr : r.IsOk = false := hpre r (List.mem_cons_self _ _)
    cases hc : r.clientAddrPort with
    | some x =>
      rw [CResult.IsOk, hc] at hr
      simp at hr
    | none =>
      rw [List.cons_append]
      simp only [getLoop, hc]
      exact ih r.errv (fun x hx => hpre x (List.mem_cons_of_mem r hx))

theorem getLoop_all_fail (l : List CResult) (r : CResult) (e0 : ClientError)
    (hfail : ∀ x ∈ l ++ [r], x.IsOk = false) (herr : ¬ r.errv.err = none) :
    getLoop (l ++ [r]) e0 = .lastErr r.errv := by
  induction l generalizing e0 with
  | nil =>
    have hr : r.IsOk = false := hfail r (by simp)
    cases hc : r.clientAddrPort with
    | some x =>
      rw [CResult.IsOk, hc] at hr
      simp at hr
    | none =>
      rw [List.nil_append]
      simp only [getLoop, hc]
      rw [if_neg herr]
  | cons x xs ih =>
    have hx : x.IsOk = false := hfail x (by simp)
    cases hc : x.clientAddrPort with
    | some y =>
      rw [CResult.IsOk, hc] at hx
      simp at hx
    | none =>
      rw [List.cons_append]
      simp only [getLoop, hc]
      refine ih x.errv (fun z hz => hfail z ?_)
      rcases List.mem_append.mp hz with h' | h'
      · exact List.mem_cons_of_mem x (List.mem_append.mpr (Or.inl h'))
      · exact List.mem_cons_of_mem x (List.mem_append.mpr (Or.inr h'))

/-- Claim C7: in bounded (one-shot) mode, `Get` imposes the overall deadline
interval × attempts, returns the address of the first success outcome
(everything after it is irrelevant); if the stream closes without any
success, it returns the last observed error, or the deadline-exceeded error
when no error outcome was observed (in particular on an empty stream). -/
theorem ClientGet_oneshot (interval attempts : Int)
    (pre rest outcomes l : List CResult) (a : AddrPort) (r : CResult)
    (hi : interval ≠ 0) (ha : attempts ≠ 0) :
    ((ClientGet interval attempts outcomes).1 = interval * attempts) ∧
    ((∀ x ∈ pre, x.IsOk = false) →
      (ClientGet interval attempts (pre ++ OkResult a :: rest)).2 = .ok a) ∧
    ((∀ x ∈ l ++ [r], x.IsOk = false) → ¬ r.errv.err = none →
      (ClientGet interval attempts (l ++ [r])).2 = .lastErr r.errv) ∧
    ((ClientGet interval attempts []).2 = .deadlineExceeded) := by
  refine ⟨?_, ?_, ?_, ?_⟩
  · unfold ClientGet
    rw [if_neg hi, if_neg ha]
  · intro hpre
    exact getLoop_first_ok pre rest a zeroClientError hpre
  · intro hfail herr
    exact getLoop_all_fail l r zeroClientError hfail herr
  · rfl

/-- Witness for `ClientGet_oneshot`: interval 3, attempts 4; a failed
attempt followed by a success yields the success; two failed attempts yield
the last error. -/
theorem ClientGet_oneshot_witness :
    (ClientGet 3 4 [ErrResult ⟨"e1", 49, some ("io")⟩,
        OkResult ⟨.v4 9 9 9 9, 1⟩]).1 = 3 * 4 ∧
    (ClientGet 3 4 [ErrResult ⟨"e1", 49, some ("io")⟩,
        OkResult ⟨.v4 9 9 9 9, 1⟩]).2 = .ok ⟨.v4 9 9 9 9, 1⟩ ∧
    (ClientGet 3 4 [ErrResult ⟨"e1", 49, some ("io")⟩,
        ErrResult ⟨"e2", 10, some ("bad")⟩]).2
      = .lastErr ⟨"e2", 10, some ("bad")⟩ ∧
    (ClientGet 3 4 []).2 = .deadlineExceeded :=
  have h := ClientGet_oneshot 3 4 [ErrResult ⟨"e1", 49, some ("io")⟩]
    [] [ErrResult ⟨"e1", 49, some ("io")⟩, OkResult ⟨.v4 9 9 9 9, 1⟩]
    [ErrResult ⟨"e1", 49, some ("io")⟩] ⟨.v4 9 9 9 9, 1⟩
    (ErrResult ⟨"e2", 10, some ("bad")⟩) (by decide) (by decide)
  ⟨h.1, h.2.1 (by decide), h.2.2.1 (by decide) (by decide), h.2.2.2⟩

end Opdt
